import Mathlib

/-!
Verification of the tables-cli core: format detection (`deduct_table_type`),
the two format parsers, the header heuristic (`first_line_is_header`), and
the `Table` data structure (`src/table.rs`, `src/table_parser.rs`).

Strings are Lean `String`s; the character-level operations of the Rust
standard library (`str::lines`, `str::split`, `str::trim`, `str::contains`,
`str::matches(..).count`) are embedded as executable functions over the
underlying `List Char`.  Rust's `HashMap<String, usize>` is embedded as an
association list with insert-or-replace semantics; the only operations the
source uses are `insert` (returning whether the key was present), `len`,
`is_empty` and `get`, none of which depend on iteration order.  A Rust
function that can panic (out-of-bounds `Vec::remove`) is embedded with an
`Option` layer: `none` models the panic.
-/

namespace TablesCli

/-! ## Character-level string utilities (embedding of Rust `str` methods) -/

/-- Embedding of Rust `str::split(sep)` on the character list of a string:
splits at every occurrence of `sep`; the empty list splits to `[[]]`,
mirroring `"".split(c) == [""]`. -/
def splitChar (sep : Char) : List Char → List (List Char)
  | [] => [[]]
  | c :: rest =>
    if c = sep then [] :: splitChar sep rest
    else
      match splitChar sep rest with
      | [] => [[c]]
      | g :: gs => (c :: g) :: gs

/-- Drops a single trailing carriage return, as Rust `str::lines` does for
every line that was terminated by a line feed. -/
def stripCR (l : List Char) : List Char :=
  if l.getLastD ' ' = '\r' then l.dropLast else l

/-- Embedding of Rust `str::lines` at the character level: split at `'\n'`,
strip one trailing `'\r'` from every terminated line, and drop the final
segment when it is empty (the final line ending is optional). -/
def rustLinesChars (l : List Char) : List (List Char) :=
  let segs := splitChar '\n' l
  let lst := segs.getLastD []
  segs.dropLast.map stripCR ++ (if lst = [] then [] else [lst])

/-- Embedding of Rust `str::lines` producing `String`s. -/
def rustLines (s : String) : List String :=
  (rustLinesChars s.data).map String.mk

/-- Removes leading and trailing whitespace from a character list
(embedding of Rust `str::trim`). -/
def trimChars (l : List Char) : List Char :=
  ((l.dropWhile Char.isWhitespace).reverse.dropWhile Char.isWhitespace).reverse

/-- Embedding of Rust `str::trim`. -/
def rustTrim (s : String) : String :=
  String.mk (trimChars s.data)

/-! ## Table data model (src/table.rs) -/

/-- Embedding of the Rust `TableError` enum. -/
inductive TableError where
  | EmptyHeader
  | DuplicateColumn (name : String)
  | RowLengthMismatch (row_index row_len header_len : Nat)
  | InvalidRowIndex (index : Nat)
  | InvalidTableSize
deriving DecidableEq, Inhabited

/-- Embedding of the Rust `Table` struct.  The `HashMap<String, usize>`
field is represented by an association list with unique keys (built only
through `hmInsertGet`, which replaces an existing binding in place). -/
structure Table where
  data : List (List String)
  header_map : List (String × Nat)
deriving DecidableEq, Inhabited

/-- `HashMap::insert`: stores `(k, v)` (replacing an existing binding for
`k` in place) and reports the previous value bound to `k`, if any. -/
def hmInsertGet (k : String) (v : Nat) : List (String × Nat) → List (String × Nat) × Option Nat
  | [] => ([(k, v)], none)
  | (k', v') :: rest =>
    if k' = k then ((k, v) :: rest, some v')
    else
      let r := hmInsertGet k v rest
      ((k', v') :: r.1, r.2)

/-- `HashMap::get`: the value bound to `k`, if any. -/
def hmGet (m : List (String × Nat)) (k : String) : Option Nat :=
  (m.find? (fun p => p.1 = k)).map (fun p => p.2)

/-- The header-construction loop of `Table::with_header_and_data`: inserts
each column name with its index, failing with `DuplicateColumn` on the
first name whose insertion reports a previous binding. -/
def buildHeader (m : List (String × Nat)) : List String → Nat → Except TableError (List (String × Nat))
  | [], _ => .ok m
  | name :: rest, idx =>
    match hmInsertGet name idx m with
    | (_, some _) => .error (.DuplicateColumn name)
    | (m', none) => buildHeader m' rest (idx + 1)

/-- The row-validation loop of `Table::with_header_and_data`: fails with
`RowLengthMismatch` at the first row whose length differs from the header
length. -/
def checkRows (header_len : Nat) : Nat → List (List String) → Except TableError Unit
  | _, [] => .ok ()
  | i, r :: rest =>
    if r.length ≠ header_len then .error (.RowLengthMismatch i r.length header_len)
    else checkRows header_len (i + 1) rest

/-- Embedding of `Table::with_header_and_data`. -/
def with_header_and_data (header : List String) (data : List (List String)) : Except TableError Table :=
  if header = [] then .error .EmptyHeader
  else
    match buildHeader [] header 0 with
    | .error e => .error e
    | .ok m =>
      match checkRows header.length 0 data with
      | .error e => .error e
      | .ok _ => .ok (Table.mk data m)

/-- Embedding of `Table::with_data`: stores the rows with an empty header
map, with no validation. -/
def with_data (data : List (List String)) : Except TableError Table :=
  .ok (Table.mk data [])

/-- Embedding of `Table::add_row` in state-passing form: the first
component is the table after the call (Rust mutates `self` in place), the
second is the returned error, if any. -/
def add_row (t : Table) (row : List String) : Table × Option TableError :=
  if t.header_map ≠ [] ∧ t.header_map.length ≠ row.length then
    (t, some (.RowLengthMismatch t.data.length row.length t.header_map.length))
  else
    (Table.mk (t.data ++ [row]) t.header_map, none)

instance {ε α : Type} [DecidableEq ε] [DecidableEq α] : DecidableEq (Except ε α) := by
  intro a b
  cases a <;> cases b
  case error.error x y =>
    exact if h : x = y then .isTrue (by rw [h]) else .isFalse (by simp [h])
  case ok.ok x y =>
    exact if h : x = y then .isTrue (by rw [h]) else .isFalse (by simp [h])
  case error.ok x y => exact .isFalse (by simp)
  case ok.error x y => exact .isFalse (by simp)

/-! ## Format detection (src/table_parser.rs, `deduct_table_type`) -/

/-- Embedding of the Rust `TableType` enum. -/
inductive TableType where
  | AsciiTable
  | CsvTable
  | Unknown
deriving DecidableEq, BEq, Inhabited

/-- Whether a string matches the separator regex `^\+[-]+\+$`: a `'+'`,
one or more `'-'`, and a final `'+'`, with nothing else. -/
def sepMatch (s : String) : Bool :=
  match s.data with
  | [] => false
  | c :: rest =>
    c == '+' && !rest.dropLast.isEmpty && rest.getLastD ' ' == '+'
      && rest.dropLast.all (fun d => d == '-')

/-- Whether a string matches the content regex `^\|.*\|$`: a `'|'` at the
start, a `'|'` at the end, and no line feed in between (`.` does not match
`'\n'`). -/
def contentMatch (s : String) : Bool :=
  match s.data with
  | [] => false
  | c :: rest =>
    c == '|' && !rest.isEmpty && rest.getLastD ' ' == '|'
      && rest.dropLast.all (fun d => d != '\n')

/-- The `is_ascii_table` test of `deduct_table_type`: first and last lines
match the separator regex, every odd-indexed line matches the separator
regex, and every even-indexed line matches the content regex. -/
def asciiCheck (lines : List String) : Bool :=
  (sepMatch (lines.headD "") && sepMatch (lines.getLastD ""))
    && ((lines.enum.filter (fun p => p.1 % 2 == 1)).all (fun p => sepMatch p.2))
    && ((lines.enum.filter (fun p => p.1 % 2 == 0)).all (fun p => contentMatch p.2))

/-- The comma count of the first line plus one
(`lines.first().map(|l| l.matches(',').count() + 1).unwrap_or(0)`). -/
def csvFirstCols (lines : List String) : Nat :=
  match lines with
  | [] => 0
  | l :: _ => l.data.count ',' + 1

/-- The `is_csv` test of `deduct_table_type`: every line contains a comma,
every line has the same comma-field count as the first line, and that
count exceeds one. -/
def csvCheck (lines : List String) : Bool :=
  (lines.all (fun l => l.data.contains ','))
    && (lines.all (fun l => l.data.count ',' + 1 == csvFirstCols lines))
    && (decide (1 < csvFirstCols lines))

/-- The line-level body of `deduct_table_type`, applied to the split
lines of a non-blank input. -/
def deductLines (lines : List String) : TableType :=
  if lines.length < 3 then
    match lines with
    | [] => .Unknown
    | l :: _ => if l.data.contains ',' then .CsvTable else .Unknown
  else if asciiCheck lines then .AsciiTable
  else if csvCheck lines then .CsvTable
  else .Unknown

/-- Embedding of `deduct_table_type`. -/
def deduct_table_type (data : String) : TableType :=
  if rustTrim data = "" then .Unknown
  else deductLines (rustLines data)

/-! ## Parsers (src/table_parser.rs) -/

/-- One line of the CSV parser: split at commas and trim each field. -/
def csvSplitLine (line : String) : List String :=
  (splitChar ',' line.data).map (fun c => String.mk (trimChars c))

/-- Embedding of `parse_csv_table`.  `none` models the panic of
`lines.remove(0)` on an empty vector when the header flag is set. -/
def parse_csv_table (data : String) (flh : Bool) : Option (Except TableError Table) :=
  let lines := (rustLines data).map csvSplitLine
  if flh then
    match lines with
    | [] => none
    | h :: rest => some (with_header_and_data h rest)
  else some (with_data lines)

/-- One line of the ASCII parser: split at `'|'`, take the first
`line.len() - 1` fields (the Rust source uses the character length of the
line here, not the field count), drop the first field, and trim the rest. -/
def asciiSplitLine (line : String) : List String :=
  (((splitChar '|' line.data).take (line.data.length - 1)).drop 1).map
    (fun c => String.mk (trimChars c))

/-- Embedding of `parse_ascii_table`: keeps only the even-indexed lines,
splits each with `asciiSplitLine`, then branches on the header flag.
`none` models the panic of `lines.remove(0)` on an empty vector. -/
def parse_ascii_table (data : String) (flh : Bool) : Option (Except TableError Table) :=
  let lines := ((rustLines data).enum.filter (fun p => p.1 % 2 == 0)).map
    (fun p => asciiSplitLine p.2)
  if flh then
    match lines with
    | [] => none
    | h :: rest => some (with_header_and_data h rest)
  else some (with_data lines)

/-- Embedding of `parse_table`: dispatch on the table type. -/
def parse_table (t : TableType) (data : String) (flh : Bool) : Option (Except TableError Table) :=
  match t with
  | .AsciiTable => parse_ascii_table data flh
  | .CsvTable => parse_csv_table data flh
  | .Unknown => some (.error .InvalidTableSize)

/-! ## Header heuristic (src/table_parser.rs, `first_line_is_header`) -/

/-- Strips at most one leading sign character. -/
def stripSign : List Char → List Char
  | '+' :: rest => rest
  | '-' :: rest => rest
  | l => l

/-- One or more decimal digits (the `Count` production of the grammar of
Rust `f64::from_str`). -/
def isCount (l : List Char) : Bool :=
  !l.isEmpty && l.all Char.isDigit

/-- The `Exp` production of the grammar of Rust `f64::from_str`:
`('e' | 'E') Sign? Count`. -/
def expOk : List Char → Bool
  | [] => false
  | c :: rest => (c == 'e' || c == 'E') && isCount (stripSign rest)

/-- The `Number` production of the grammar of Rust `f64::from_str`:
`Count '.'? Count? Exp?  |  '.' Count Exp?`. -/
def mantissaOk (l : List Char) : Bool :=
  let d1 := l.takeWhile Char.isDigit
  let r1 := l.dropWhile Char.isDigit
  if d1.isEmpty then
    match r1 with
    | '.' :: r2 =>
      let d2 := r2.takeWhile Char.isDigit
      let r3 := r2.dropWhile Char.isDigit
      !d2.isEmpty && (r3.isEmpty || expOk r3)
    | _ => false
  else
    match r1 with
    | [] => true
    | '.' :: r2 =>
      let r3 := r2.dropWhile Char.isDigit
      r3.isEmpty || expOk r3
    | _ => expOk r1

/-- Case-insensitive comparison against a fixed lowercase word. -/
def lowerEq (l : List Char) (s : String) : Bool :=
  l.map Char.toLower == s.data

/-- Whether Rust `s.parse::<f64>()` succeeds: the string matches
`Sign? ('inf' | 'infinity' | 'nan' | Number)` (case-insensitive special
words).  Success is purely syntactic — out-of-range magnitudes round to
infinity or zero rather than failing — so no floating-point arithmetic is
involved. -/
def parseF64ok (s : String) : Bool :=
  let l := stripSign s.data
  lowerEq l "inf" || lowerEq l "infinity" || lowerEq l "nan" || mantissaOk l

/-- The fallback test of `first_line_is_header` for a single header cell:
every character is alphabetic, whitespace or an underscore, or every
character is uppercase. -/
def headerCellOk (h : String) : Bool :=
  h.data.all (fun c => c.isAlpha || c.isWhitespace || c == '_')
    || h.data.all Char.isUpper

/-- The scanning loop of `first_line_is_header`: returns `true` at the
first position where exactly one of the two cells parses as `f64`. -/
def contrastScan : List (String × String) → Bool
  | [] => false
  | (h, v) :: rest =>
    if parseF64ok h != parseF64ok v then true else contrastScan rest

/-- Embedding of `first_line_is_header`. -/
def first_line_is_header (lines : List (List String)) : Bool :=
  match lines with
  | l0 :: l1 :: _ =>
    if l0.length ≠ l1.length then false
    else if contrastScan (l0.zip l1) then true
    else l0.all headerCellOk
  | _ => false

/-! ## Lemmas about the detector -/

/-- No line can match both the separator regex and the content regex: the
former requires a leading `'+'`, the latter a leading `'|'`. -/
theorem sep_content_false (s : String) : (sepMatch s && contentMatch s) = false := by
  rcases hd : s.data with _ | ⟨c, rest⟩ <;> simp [sepMatch, contentMatch, hd]
  intro h1 _ _ _ h2
  subst h1
  exact absurd h2 (by decide)

/-- The `is_ascii_table` conjunction of `deduct_table_type` is
unsatisfiable: line 0 would have to match the separator regex (border
check) and, being even-indexed, the content regex as well. -/
theorem asciiCheck_false (lines : List String) : asciiCheck lines = false := by
  cases lines with
  | nil => decide
  | cons l0 rest =>
    cases hsep : sepMatch l0 with
    | false => simp [asciiCheck, hsep]
    | true =>
      have hmem : (0, l0) ∈ ((l0 :: rest).enum.filter (fun p => p.1 % 2 == 0)) := by
        rw [List.enum_cons]
        exact List.mem_filter.mpr ⟨List.mem_cons_self _ _, rfl⟩
      have hcon : contentMatch l0 = false := by
        have := sep_content_false l0
        rw [hsep] at this
        simpa using this
      have hall : ((l0 :: rest).enum.filter (fun p => p.1 % 2 == 0)).all
          (fun p => contentMatch p.2) = false := by
        rw [Bool.eq_false_iff]
        intro htrue
        have := List.all_eq_true.mp htrue (0, l0) hmem
        rw [hcon] at this
        exact Bool.false_ne_true this
      simp [asciiCheck, hall]

/-! ## Claim theorems -/

/-- Claim C2: for every input string, `deduct_table_type` never returns
`AsciiTable`.  The first conjunct is the stated reason: no single line can
match both the border pattern and the content pattern, so the conjunction
deciding `AsciiTable` (which requires line 0 to match both) is
unsatisfiable; the second conjunct extends this to every input, including
those with fewer than 3 lines. -/
theorem deduct_never_ascii :
    (∀ s : String, (sepMatch s && contentMatch s) = false)
    ∧ (∀ data : String, (deduct_table_type data == TableType.AsciiTable) = false) := by
  refine ⟨sep_content_false, fun data => ?_⟩
  unfold deduct_table_type deductLines
  split
  · rfl
  · simp only [asciiCheck_false, Bool.false_eq_true, if_false]
    split
    · split
      · rfl
      · split <;> rfl
    · split <;> rfl

/-- Claim C1: on the Scenario-2 input the detector does NOT return
`AsciiTable` — it returns `Unknown` (the border check and the
even-line-content check cannot both hold for line 0) — and parsing that
input with the `AsciiTable` tag and the header flag set yields
`EmptyHeader` (the even-indexed lines are the `+---+---+` borders, which
split to empty rows) rather than a table with header `["a", "b"]`. -/
theorem scenario2_detects_unknown :
    deduct_table_type "+---+---+\n| a | b |\n+---+---+\n| 1 | 2 |\n+---+---+"
        = TableType.Unknown
    ∧ parse_table TableType.AsciiTable
        "+---+---+\n| a | b |\n+---+---+\n| 1 | 2 |\n+---+---+" true
        = some (Except.error TableError.EmptyHeader) := by
  constructor
  · decide
  · decide

/-- Claim C5: the ASCII parser does NOT drop the trailing empty field of a
content line: `take (line.len() - 1)` bounds the split fields by the
character length of the line, which almost never truncates, so the row
produced from `"| a | b |"` is `["a", "b", ""]` — with a trailing empty
cell — and a whole parse consequently carries the extra cell in every row. -/
theorem ascii_parser_keeps_trailing_empty :
    asciiSplitLine "| a | b |" = ["a", "b", ""]
    ∧ parse_table TableType.AsciiTable "| a | b |\n+---+\n| 1 | 2 |" false
        = some (Except.ok (Table.mk [["a", "b", ""], ["1", "2", ""]] [])) := by
  constructor
  · decide
  · decide

/-- Claim C9: on the empty input with the header flag set, both parsers
reach `lines.remove(0)` with an empty row list, an out-of-bounds access:
the embedding returns `none` (the panic marker), not a `TableError`. -/
theorem parse_empty_input_panics :
    parse_table TableType.CsvTable "" true = none
    ∧ parse_table TableType.AsciiTable "" true = none := by
  constructor
  · decide
  · decide

/-- Claim C6: on a table whose header map is non-empty with `W` columns,
`add_row r` fails (with `RowLengthMismatch`) exactly when `|r| ≠ W` and
appends `r` otherwise; on a table whose header map is empty it always
succeeds and appends `r`, whatever its length. -/
theorem add_row_length_check :
    (∀ (t : Table) (r : List String), t.header_map ≠ [] →
      (((add_row t r).2 = none) ↔ r.length = t.header_map.length)
      ∧ ((add_row t r).2 = none → (add_row t r).1.data = t.data ++ [r])
      ∧ (r.length ≠ t.header_map.length →
          (add_row t r).2
            = some (TableError.RowLengthMismatch t.data.length r.length t.header_map.length)))
    ∧ (∀ (t : Table) (r : List String), t.header_map = [] →
      (add_row t r).2 = none ∧ (add_row t r).1.data = t.data ++ [r]) := by
  constructor
  · intro t r hne
    by_cases h : r.length = t.header_map.length
    · have hcond : ¬(t.header_map ≠ [] ∧ t.header_map.length ≠ r.length) := by
        intro hc
        exact hc.2 h.symm
      unfold add_row
      rw [if_neg hcond]
      exact ⟨⟨fun _ => h, fun _ => rfl⟩, fun _ => rfl, fun hr => absurd h hr⟩
    · have hcond : t.header_map ≠ [] ∧ t.header_map.length ≠ r.length :=
        ⟨hne, fun he => h he.symm⟩
      unfold add_row
      rw [if_pos hcond]
      exact ⟨⟨fun hn => Option.noConfusion hn, fun he => absurd he h⟩,
        fun hn => Option.noConfusion hn, fun _ => rfl⟩
  · intro t r he
    have hcond : ¬(t.header_map ≠ [] ∧ t.header_map.length ≠ r.length) := by
      intro hc
      exact hc.1 he
    unfold add_row
    rw [if_neg hcond]
    exact ⟨rfl, rfl⟩

/-- Witness for C6: adding `["x"]` to the empty header-less table
succeeds and appends the row. -/
theorem add_row_length_check_witness :
    (add_row (Table.mk [] []) ["x"]).2 = none
    ∧ (add_row (Table.mk [] []) ["x"]).1.data = (Table.mk [] []).data ++ [["x"]] :=
  add_row_length_check.2 (Table.mk [] []) ["x"] rfl

/-- Claim C10: `add_row` never modifies the header map, modifies the row
data only by appending the given row, and on error leaves the table
exactly as it was. -/
theorem add_row_frame :
    ∀ (t : Table) (r : List String),
      (add_row t r).1.header_map = t.header_map
      ∧ ((add_row t r).2 = none → (add_row t r).1.data = t.data ++ [r])
      ∧ (∀ e, (add_row t r).2 = some e → (add_row t r).1 = t) := by
  intro t r
  unfold add_row
  split
  · exact ⟨rfl, fun hn => Option.noConfusion hn, fun _ _ => rfl⟩
  · exact ⟨rfl, fun _ => rfl, fun e he => Option.noConfusion he⟩

/-- Witness for C10: a failing `add_row` (row of length 2 against a
one-column header) leaves the table unchanged. -/
theorem add_row_frame_witness :
    (add_row (Table.mk [] [("a", 0)]) ["x", "y"]).1 = Table.mk [] [("a", 0)] :=
  (add_row_frame (Table.mk [] [("a", 0)]) ["x", "y"]).2.2
    (TableError.RowLengthMismatch 0 2 1) (by decide)

/-- The early-return scanning loop of `first_line_is_header` computes the
same value as `List.any` with the numeric-contrast predicate. -/
theorem contrastScan_eq_any (l : List (String × String)) :
    contrastScan l = l.any (fun p => parseF64ok p.1 != parseF64ok p.2) := by
  induction l with
  | nil => rfl
  | cons p rest ih =>
    rcases p with ⟨h, v⟩
    unfold contrastScan
    rw [List.any_cons, ← ih]
    by_cases hc : (parseF64ok h != parseF64ok v) = true
    · simp [hc]
    · simp [hc]

/-- Claim C7: `first_line_is_header` returns `false` for fewer than 2 rows
and when rows 0 and 1 differ in cell count; otherwise it returns `true`
iff some position shows a numeric/non-numeric contrast between row 0 and
row 1, or, failing that, iff every cell of row 0 is all
alphabetic/whitespace/underscore or all uppercase.  In particular it
returns `true` on `[["Name", "Age"], ["Bob", "30"]]`. -/
theorem first_line_is_header_spec :
    (∀ lines : List (List String), lines.length < 2 → first_line_is_header lines = false)
    ∧ (∀ (l0 l1 : List String) (rest : List (List String)), l0.length ≠ l1.length →
        first_line_is_header (l0 :: l1 :: rest) = false)
    ∧ (∀ (l0 l1 : List String) (rest : List (List String)), l0.length = l1.length →
        first_line_is_header (l0 :: l1 :: rest)
          = ((l0.zip l1).any (fun p => parseF64ok p.1 != parseF64ok p.2)
              || l0.all headerCellOk))
    ∧ first_line_is_header [["Name", "Age"], ["Bob", "30"]] = true := by
  refine ⟨?_, ?_, ?_, by decide⟩
  · intro lines hlt
    match lines with
    | [] => rfl
    | [_] => rfl
    | _ :: _ :: _ => exact absurd hlt (by simp)
  · intro l0 l1 rest hne
    show (if l0.length ≠ l1.length then false
        else if contrastScan (l0.zip l1) then true else l0.all headerCellOk) = false
    rw [if_pos hne]
  · intro l0 l1 rest heq
    show (if l0.length ≠ l1.length then false
        else if contrastScan (l0.zip l1) then true else l0.all headerCellOk)
      = ((l0.zip l1).any (fun p => parseF64ok p.1 != parseF64ok p.2) || l0.all headerCellOk)
    rw [if_neg (by simp [heq]), contrastScan_eq_any]
    by_cases hany : ((l0.zip l1).any (fun p => parseF64ok p.1 != parseF64ok p.2)) = true
    · simp [hany]
    · simp [hany]

/-- Witness for C7: the empty row list has fewer than 2 rows, and the
heuristic returns `false` on it. -/
theorem first_line_is_header_spec_witness :
    first_line_is_header ([] : List (List String)) = false :=
  first_line_is_header_spec.1 [] (by decide)

/-- Counterexample to claim C4 as stated: `"x\na,b"` is neither empty nor
whitespace-only, splits into the 2 lines `["x", "a,b"]`, and its lines
contain a comma (in line 1) — yet `deduct_table_type` classifies it
`Unknown`, because the short-input branch only inspects `lines[0]`. -/
theorem deduct_short_input_counterexample :
    (rustTrim "x\na,b" == "") = false
    ∧ rustLines "x\na,b" = ["x", "a,b"]
    ∧ ("a,b".data.contains ',') = true
    ∧ deduct_table_type "x\na,b" = TableType.Unknown := by
  exact ⟨by decide, by decide, by decide, by decide⟩

/-- Claim C4 as amended: for every non-blank input splitting into fewer
than 3 lines, `deduct_table_type` returns `CsvTable` if and only if the
FIRST line contains a comma, and `Unknown` otherwise; in particular a
2-line input whose first line contains a comma is classified `CsvTable`
with no column-count consistency requirement on the second line. -/
theorem deduct_short_input_csv :
    ∀ data : String, rustTrim data ≠ "" → (rustLines data).length < 3 →
      deduct_table_type data
        = (if ((rustLines data).headD "").data.contains ',' then TableType.CsvTable
           else TableType.Unknown) := by
  intro data hne hlt
  unfold deduct_table_type deductLines
  rw [if_neg hne, if_pos hlt]
  rcases h : rustLines data with _ | ⟨l, rest⟩
  · simp [h, List.headD]
  · simp [h, List.headD]

/-- Witness for C4 (amended): the 1-line input `"a,b"` satisfies the
hypotheses and is classified per the first-line comma test. -/
theorem deduct_short_input_csv_witness :
    deduct_table_type "a,b"
      = (if ((rustLines "a,b").headD "").data.contains ',' then TableType.CsvTable
         else TableType.Unknown) :=
  deduct_short_input_csv "a,b" (by decide) (by decide)

/-! ## Lemmas about `with_header_and_data` (claim C3) -/

/-- Whether an `Except` value is a success. -/
def exceptOk {ε α : Type} : Except ε α → Bool
  | .ok _ => true
  | .error _ => false

/-- Spec-side: the first name repeated in a left-to-right scan of the
header, relative to names already seen. -/
def firstDup (seen : List String) : List String → Option String
  | [] => none
  | x :: rest => if x ∈ seen then some x else firstDup (seen ++ [x]) rest

/-- Spec-side: index and length of the first row (scanning in order,
counting from `i`) whose length differs from the header length. -/
def firstBad (hlen : Nat) : Nat → List (List String) → Option (Nat × Nat)
  | _, [] => none
  | i, r :: rest =>
    if r.length ≠ hlen then some (i, r.length) else firstBad hlen (i + 1) rest

theorem hmInsertGet_mem (k : String) (v : Nat) (m : List (String × Nat))
    (h : k ∈ m.map Prod.fst) : ∃ w, (hmInsertGet k v m).2 = some w := by
  induction m with
  | nil => simp at h
  | cons p rest ih =>
    rcases p with ⟨k', v'⟩
    unfold hmInsertGet
    by_cases hk : k' = k
    · simp [hk]
    · simp only [if_neg hk]
      apply ih
      simp only [List.map_cons, List.mem_cons] at h
      rcases h with h | h
      · exact absurd h.symm hk
      · exact h

theorem hmInsertGet_not_mem (k : String) (v : Nat) (m : List (String × Nat))
    (h : k ∉ m.map Prod.fst) : hmInsertGet k v m = (m ++ [(k, v)], none) := by
  induction m with
  | nil => rfl
  | cons p rest ih =>
    rcases p with ⟨k', v'⟩
    simp only [List.map_cons, List.mem_cons, not_or] at h
    unfold hmInsertGet
    rw [if_neg (fun he => h.1 he.symm), ih h.2]
    simp

theorem hmGet_cons (a : String) (n : Nat) (m : List (String × Nat)) (k : String) :
    hmGet ((a, n) :: m) k = if a = k then some n else hmGet m k := by
  unfold hmGet
  rw [List.find?_cons]
  by_cases h : a = k
  · simp [h]
  · simp [h]

theorem buildHeader_dup (names : List String) :
    ∀ (m : List (String × Nat)) (i : Nat) (d : String),
      firstDup (m.map Prod.fst) names = some d →
      buildHeader m names i = .error (.DuplicateColumn d) := by
  induction names with
  | nil => intro m i d h; exact Option.noConfusion h
  | cons x rest ih =>
    intro m i d h
    unfold firstDup at h
    unfold buildHeader
    by_cases hx : x ∈ m.map Prod.fst
    · rw [if_pos hx] at h
      obtain ⟨w, hw⟩ := hmInsertGet_mem x i m hx
      rcases hg : hmInsertGet x i m with ⟨m', o⟩
      rw [hg] at hw
      simp only at hw
      subst hw
      cases h
      rfl
    · rw [if_neg hx] at h
      rw [hmInsertGet_not_mem x i m hx]
      apply ih
      rw [List.map_append]
      exact h

theorem buildHeader_ok (names : List String) :
    ∀ (m : List (String × Nat)) (i : Nat),
      firstDup (m.map Prod.fst) names = none →
      buildHeader m names i
        = .ok (m ++ (names.enumFrom i).map (fun p => (p.2, p.1))) := by
  induction names with
  | nil => intro m i _; simp [buildHeader]
  | cons x rest ih =>
    intro m i h
    unfold firstDup at h
    by_cases hx : x ∈ m.map Prod.fst
    · rw [if_pos hx] at h; exact Option.noConfusion h
    · rw [if_neg hx] at h
      unfold buildHeader
      rw [hmInsertGet_not_mem x i m hx]
      have hseen : ((m ++ [(x, i)]).map Prod.fst) = m.map Prod.fst ++ [x] := by
        rw [List.map_append]
        rfl
      exact (ih (m ++ [(x, i)]) (i + 1) (hseen ▸ h)).trans
        (by simp [List.enumFrom_cons])

theorem checkRows_ok (data : List (List String)) :
    ∀ (hlen i : Nat), firstBad hlen i data = none → checkRows hlen i data = .ok () := by
  induction data with
  | nil => intro hlen i _; rfl
  | cons r rest ih =>
    intro hlen i h
    unfold firstBad at h
    unfold checkRows
    by_cases hr : r.length ≠ hlen
    · rw [if_pos hr] at h; exact Option.noConfusion h
    · rw [if_neg hr] at h
      rw [if_neg hr]
      exact ih hlen (i + 1) h

theorem checkRows_bad (data : List (List String)) :
    ∀ (hlen i j len : Nat), firstBad hlen i data = some (j, len) →
      checkRows hlen i data = .error (.RowLengthMismatch j len hlen) := by
  induction data with
  | nil => intro hlen i j len h; exact Option.noConfusion h
  | cons r rest ih =>
    intro hlen i j len h
    unfold firstBad at h
    unfold checkRows
    by_cases hr : r.length ≠ hlen
    · rw [if_pos hr] at h
      rw [if_pos hr]
      cases h
      rfl
    · rw [if_neg hr] at h
      rw [if_neg hr]
      exact ih hlen (i + 1) j len h

theorem firstBad_none_iff (data : List (List String)) :
    ∀ (hlen i : Nat), firstBad hlen i data = none ↔ ∀ r ∈ data, r.length = hlen := by
  induction data with
  | nil => intro hlen i; simp [firstBad]
  | cons r rest ih =>
    intro hlen i
    unfold firstBad
    by_cases hr : r.length ≠ hlen
    · rw [if_pos hr]
      simp only [List.mem_cons]
      constructor
      · intro h; exact Option.noConfusion h
      · intro h; exact absurd (h r (Or.inl rfl)) hr
    · rw [if_neg hr]
      rw [ih hlen (i + 1)]
      push_neg at hr
      simp only [List.mem_cons]
      constructor
      · intro h r' hr'
        rcases hr' with hr' | hr'
        · rw [hr']; exact hr
        · exact h r' hr'
      · intro h r' hr'
        exact h r' (Or.inr hr')

theorem firstDup_none_iff (names : List String) :
    ∀ seen : List String,
      firstDup seen names = none ↔ names.Nodup ∧ ∀ x ∈ names, x ∉ seen := by
  induction names with
  | nil => intro seen; simp [firstDup]
  | cons x rest ih =>
    intro seen
    unfold firstDup
    by_cases hx : x ∈ seen
    · rw [if_pos hx]
      constructor
      · intro h; exact Option.noConfusion h
      · rintro ⟨_, hall⟩
        exact absurd hx (hall x (List.mem_cons_self x rest))
    · rw [if_neg hx]
      rw [ih (seen ++ [x])]
      constructor
      · rintro ⟨hnd, hall⟩
        refine ⟨List.nodup_cons.mpr ⟨?_, hnd⟩, ?_⟩
        · intro hxr
          exact (hall x hxr) (List.mem_append.mpr (Or.inr (List.mem_singleton.mpr rfl)))
        · intro y hy
          rcases List.mem_cons.mp hy with hy | hy
          · rw [hy]; exact hx
          · intro hys
            exact (hall y hy) (List.mem_append.mpr (Or.inl hys))
      · rintro ⟨hnd, hall⟩
        obtain ⟨hxr, hnd'⟩ := List.nodup_cons.mp hnd
        refine ⟨hnd', fun y hy hys => ?_⟩
        rcases List.mem_append.mp hys with hys | hys
        · exact (hall y (List.mem_cons_of_mem x hy)) hys
        · rw [List.mem_singleton.mp hys] at hy
          exact hxr hy

theorem hmGet_enumFrom (H : List String) :
    ∀ (i j : Nat) (hj : j < H.length), H.Nodup →
      hmGet ((H.enumFrom i).map (fun p => (p.2, p.1))) (H.get ⟨j, hj⟩) = some (i + j) := by
  induction H with
  | nil => intro i j hj _; exact absurd hj (by simp)
  | cons x rest ih =>
    intro i j hj hnd
    obtain ⟨hxr, hnd'⟩ := List.nodup_cons.mp hnd
    match j with
    | 0 =>
      rw [List.enumFrom_cons]
      simp only [List.map_cons]
      rw [hmGet_cons, if_pos (show x = (x :: rest).get ⟨0, hj⟩ from rfl)]
      simp
    | j + 1 =>
      rw [List.enumFrom_cons]
      simp only [List.map_cons]
      have hj' : j < rest.length := by
        simp only [List.length_cons] at hj
        omega
      have hget : (x :: rest).get ⟨j + 1, hj⟩ = rest.get ⟨j, hj'⟩ := rfl
      rw [hget, hmGet_cons]
      rw [if_neg (fun he => hxr (by rw [he]; exact rest.get_mem j hj'))]
      rw [ih (i + 1) j hj' hnd']
      congr 1
      omega

/-- Claim C3: for every non-empty header `H` and rows `D`,
`with_header_and_data H D` succeeds iff no two names of `H` are equal and
every row of `D` has length `|H|`; on success the rows are stored verbatim
and each header name maps to its left-to-right index; on a duplicated
header the error is `DuplicateColumn` for the first repeated name in a
left-to-right scan (taking priority over any row-length mismatch);
otherwise the error is `RowLengthMismatch` for the first offending row;
and an empty header yields `EmptyHeader`. -/
theorem with_header_and_data_spec :
    (∀ (H : List String) (D : List (List String)), H ≠ [] →
      ((exceptOk (with_header_and_data H D) = true) ↔
          (H.Nodup ∧ ∀ r ∈ D, r.length = H.length))
      ∧ (∀ t, with_header_and_data H D = .ok t →
          t.data = D ∧ ∀ (j : Nat) (hj : j < H.length),
            hmGet t.header_map (H.get ⟨j, hj⟩) = some j)
      ∧ (∀ d, firstDup [] H = some d →
          with_header_and_data H D = .error (.DuplicateColumn d))
      ∧ (firstDup [] H = none →
          ∀ (j len : Nat), firstBad H.length 0 D = some (j, len) →
            with_header_and_data H D = .error (.RowLengthMismatch j len H.length)))
    ∧ (∀ D, with_header_and_data [] D = .error .EmptyHeader) := by
  constructor
  · intro H D hne
    have hmap : (([] : List (String × Nat)).map Prod.fst) = [] := rfl
    refine ⟨?_, ?_, ?_, ?_⟩
    · constructor
      · intro hok
        unfold with_header_and_data at hok
        rw [if_neg hne] at hok
        cases hfd : firstDup [] H with
        | some d =>
          rw [buildHeader_dup H [] 0 d (hmap ▸ hfd)] at hok
          exact absurd hok (by simp [exceptOk])
        | none =>
          have hnd := ((firstDup_none_iff H []).mp hfd).1
          rw [buildHeader_ok H [] 0 (hmap ▸ hfd)] at hok
          refine ⟨hnd, ?_⟩
          rw [← firstBad_none_iff D H.length 0]
          cases hfb : firstBad H.length 0 D with
          | none => rfl
          | some p =>
            rcases p with ⟨j, len⟩
            rw [checkRows_bad D H.length 0 j len hfb] at hok
            exact absurd hok (by simp [exceptOk])
      · rintro ⟨hnd, hlen⟩
        have hfd : firstDup [] H = none :=
          (firstDup_none_iff H []).mpr ⟨hnd, fun x _ hx => (List.not_mem_nil x) hx⟩
        have hfb : firstBad H.length 0 D = none :=
          (firstBad_none_iff D H.length 0).mpr hlen
        unfold with_header_and_data
        rw [if_neg hne, buildHeader_ok H [] 0 (hmap ▸ hfd), checkRows_ok D H.length 0 hfb]
        rfl
    · intro t hok
      unfold with_header_and_data at hok
      rw [if_neg hne] at hok
      cases hfd : firstDup [] H with
      | some d =>
        rw [buildHeader_dup H [] 0 d (hmap ▸ hfd)] at hok
        exact Except.noConfusion hok
      | none =>
        have hnd := ((firstDup_none_iff H []).mp hfd).1
        rw [buildHeader_ok H [] 0 (hmap ▸ hfd)] at hok
        cases hfb : firstBad H.length 0 D with
        | some p =>
          rcases p with ⟨j, len⟩
          rw [checkRows_bad D H.length 0 j len hfb] at hok
          exact Except.noConfusion hok
        | none =>
          rw [checkRows_ok D H.length 0 hfb] at hok
          cases hok
          refine ⟨rfl, fun j hj => ?_⟩
          have := hmGet_enumFrom H 0 j hj hnd
          rw [Nat.zero_add] at this
          simpa using this
    · intro d hfd
      unfold with_header_and_data
      rw [if_neg hne, buildHeader_dup H [] 0 d (hmap ▸ hfd)]
    · intro hfd j len hfb
      unfold with_header_and_data
      rw [if_neg hne, buildHeader_ok H [] 0 (hmap ▸ hfd),
        checkRows_bad D H.length 0 j len hfb]
  · intro D
    unfold with_header_and_data
    rw [if_pos rfl]

/-- Witness for C3: the duplicated header `["a", "a"]` fails with
`DuplicateColumn "a"`. -/
theorem with_header_and_data_spec_witness :
    with_header_and_data ["a", "a"] [] = .error (.DuplicateColumn "a") :=
  (with_header_and_data_spec.1 ["a", "a"] [] (by decide)).2.2.1 "a" (by decide)

/-! ## Round-trip through the CSV parser (claim C8) -/

/-- Joins character lists with a separator character between consecutive
elements. -/
def joinWith (sep : Char) : List (List Char) → List Char
  | [] => []
  | [x] => x
  | x :: xs => x ++ sep :: joinWith sep xs

/-- Spec-side (from the claim's words): the text obtained by joining each
row's cells with commas and the rows with line feeds. -/
def csvJoin (rows : List (List String)) : String :=
  String.mk (joinWith '\n' (rows.map (fun r => joinWith ',' (r.map String.data))))

theorem splitChar_not_mem (sep : Char) (l : List Char) (h : sep ∉ l) :
    splitChar sep l = [l] := by
  induction l with
  | nil => rfl
  | cons c rest ih =>
    simp only [List.mem_cons, not_or] at h
    unfold splitChar
    rw [if_neg (fun he => h.1 he.symm), ih h.2]

theorem splitChar_append (sep : Char) (p t : List Char) (h : sep ∉ p) :
    splitChar sep (p ++ sep :: t) = p :: splitChar sep t := by
  induction p with
  | nil => simp [splitChar]
  | cons c rest ih =>
    simp only [List.mem_cons, not_or] at h
    show splitChar sep (c :: (rest ++ sep :: t)) = (c :: rest) :: splitChar sep t
    conv_lhs => rw [splitChar]
    rw [if_neg (fun he => h.1 he.symm), ih h.2]

theorem splitChar_joinWith (sep : Char) (ps : List (List Char)) :
    ps ≠ [] → (∀ p ∈ ps, sep ∉ p) → splitChar sep (joinWith sep ps) = ps := by
  induction ps with
  | nil => intro hne _; exact absurd rfl hne
  | cons p rest ih =>
    intro _ h
    cases rest with
    | nil => exact splitChar_not_mem sep p (h p (List.mem_cons_self p []))
    | cons q rest' =>
      show splitChar sep (p ++ sep :: joinWith sep (q :: rest')) = _
      rw [splitChar_append sep p _ (h p (List.mem_cons_self p _))]
      rw [ih (by simp) (fun x hx => h x (List.mem_cons_of_mem p hx))]

theorem not_mem_joinWith (sep c : Char) (ps : List (List Char))
    (hc : c ≠ sep) (h : ∀ p ∈ ps, c ∉ p) : c ∉ joinWith sep ps := by
  induction ps with
  | nil => simp [joinWith]
  | cons p rest ih =>
    cases rest with
    | nil => exact h p (List.mem_cons_self p [])
    | cons q rest' =>
      show c ∉ p ++ sep :: joinWith sep (q :: rest')
      intro hmem
      rcases List.mem_append.mp hmem with hm | hm
      · exact h p (List.mem_cons_self p _) hm
      · rcases List.mem_cons.mp hm with hm | hm
        · exact hc hm
        · exact ih (fun x hx => h x (List.mem_cons_of_mem p hx)) hm

theorem getLastD_mem {α : Type} (l : List α) (d : α) (h : l ≠ []) :
    l.getLastD d ∈ l := by
  induction l generalizing d with
  | nil => exact absurd rfl h
  | cons c rest ih =>
    cases rest with
    | nil => simp [List.getLastD]
    | cons q r' =>
      rw [List.getLastD_cons]
      exact List.mem_cons_of_mem c (ih c (by simp))

theorem dropLast_append_getLastD {α : Type} (l : List α) (d : α) (h : l ≠ []) :
    l.dropLast ++ [l.getLastD d] = l := by
  induction l generalizing d with
  | nil => exact absurd rfl h
  | cons c rest ih =>
    cases rest with
    | nil => rfl
    | cons q r' =>
      show c :: ((q :: r').dropLast ++ [(q :: r').getLastD c]) = c :: q :: r'
      rw [ih c (by simp)]

theorem getLastD_map_ne {α β : Type} (f : α → β) (l : List α) (d : α) (e : β) :
    l ≠ [] → (l.map f).getLastD e = f (l.getLastD d) := by
  induction l generalizing d e with
  | nil => intro h; exact absurd rfl h
  | cons c rest ih =>
    intro _
    cases rest with
    | nil => rfl
    | cons q r' =>
      show ((q :: r').map f).getLastD (f c) = f ((q :: r').getLastD c)
      exact ih c (f c) (by simp)

theorem stripCR_id (l : List Char) (h : '\r' ∉ l) : stripCR l = l := by
  unfold stripCR
  rw [if_neg ?hcon]
  case hcon =>
    intro heq
    cases hl : l with
    | nil => rw [hl] at heq; exact absurd heq (by decide)
    | cons c rest =>
      apply h
      rw [← heq, hl]
      exact getLastD_mem (c :: rest) ' ' (by simp)

/-- `rustLinesChars` recovers the segments of a line-feed join when no
segment contains a line feed or a carriage return and the last segment is
non-empty. -/
theorem rustLinesChars_joinWith (segs : List (List Char)) (hne : segs ≠ [])
    (hn : ∀ s ∈ segs, '\n' ∉ s) (hr : ∀ s ∈ segs, '\r' ∉ s)
    (hlast : segs.getLastD [] ≠ []) :
    rustLinesChars (joinWith '\n' segs) = segs := by
  have hsplit := splitChar_joinWith '\n' segs hne hn
  simp only [rustLinesChars, hsplit, hlast, if_false]
  have hmap : segs.dropLast.map stripCR = segs.dropLast := by
    have : segs.dropLast.map stripCR = segs.dropLast.map id :=
      List.map_congr_left (fun s hs =>
        stripCR_id s (hr s (List.dropLast_subset segs hs)))
    rw [this, List.map_id]
  rw [hmap]
  exact dropLast_append_getLastD segs [] hne

/-- A non-empty row other than `[""]` joins to a non-empty line. -/
theorem joinWith_row_ne_nil (r : List String) (hne : r ≠ []) (hne' : r ≠ [""]) :
    joinWith ',' (r.map String.data) ≠ [] := by
  match r with
  | [] => exact absurd rfl hne
  | [c] =>
    show c.data ≠ []
    intro hd
    apply hne'
    cases c
    cases hd
    rfl
  | c1 :: c2 :: rest =>
    show c1.data ++ ',' :: joinWith ',' ((c2 :: rest).map String.data) ≠ []
    simp

/-- Counterexample to claim C8 as stated: the one-row list `[[]]` (a
non-empty list of rows; its only row has no cells, so vacuously no cell
contains a comma or a line break) joins to the empty text, which parses
to a table with NO rows — not to a table with the original row. -/
theorem csv_roundtrip_counterexample :
    csvJoin [[]] = ""
    ∧ parse_table TableType.CsvTable (csvJoin [[]]) false
        = some (Except.ok (Table.mk [] []))
    ∧ ([[]] : List (List String)).map (fun r => r.map rustTrim) = [[]]
    ∧ (([] : List (List String)) == [[]]) = false := by
  exact ⟨by decide, by decide, by decide, by decide⟩

/-- Claim C8 as amended: for every non-empty list of rows whose cells
contain no commas and no line-break characters, where additionally every
row is non-empty and the last row is not the single empty cell `[""]`
(otherwise its joined line vanishes together with the optional final line
ending), joining cells with commas and rows with line feeds and parsing
the result as `CsvTable` with the header flag off yields exactly the
original cells, each trimmed of surrounding whitespace, in order. -/
theorem csv_roundtrip (rows : List (List String))
    (hne : rows ≠ [])
    (hcell : ∀ r ∈ rows, ∀ c ∈ r, ',' ∉ c.data ∧ '\n' ∉ c.data ∧ '\r' ∉ c.data)
    (hrow : ∀ r ∈ rows, r ≠ [])
    (hlast : rows.getLastD [] ≠ [""]) :
    parse_table TableType.CsvTable (csvJoin rows) false
      = some (Except.ok (Table.mk (rows.map (fun r => r.map rustTrim)) [])) := by
  show some (with_data ((rustLines (csvJoin rows)).map csvSplitLine)) = _
  unfold with_data
  have hlines : rustLines (csvJoin rows)
      = (rows.map (fun r => joinWith ',' (r.map String.data))).map String.mk := by
    unfold rustLines csvJoin
    rw [show (String.mk (joinWith '\n' (rows.map (fun r => joinWith ',' (r.map String.data))))).data
        = joinWith '\n' (rows.map (fun r => joinWith ',' (r.map String.data))) from rfl]
    rw [rustLinesChars_joinWith]
    · simpa using hne
    · intro s hs
      obtain ⟨r, hrmem, hreq⟩ := List.mem_map.mp hs
      rw [← hreq]
      apply not_mem_joinWith ',' '\n' _ (by decide)
      intro p hp
      obtain ⟨c, hcmem, hceq⟩ := List.mem_map.mp hp
      rw [← hceq]
      exact (hcell r hrmem c hcmem).2.1
    · intro s hs
      obtain ⟨r, hrmem, hreq⟩ := List.mem_map.mp hs
      rw [← hreq]
      apply not_mem_joinWith ',' '\r' _ (by decide)
      intro p hp
      obtain ⟨c, hcmem, hceq⟩ := List.mem_map.mp hp
      rw [← hceq]
      exact (hcell r hrmem c hcmem).2.2
    · rw [getLastD_map_ne (fun r => joinWith ',' (r.map String.data)) rows [] [] hne]
      exact joinWith_row_ne_nil (rows.getLastD []) (hrow _ (getLastD_mem rows [] hne))
        (fun he => hlast he)
  rw [hlines, List.map_map, List.map_map]
  have : ∀ r ∈ rows,
      (csvSplitLine ∘ String.mk ∘ (fun r => joinWith ',' (r.map String.data))) r
        = r.map rustTrim := by
    intro r hrmem
    show (splitChar ',' (String.mk (joinWith ',' (r.map String.data))).data).map
        (fun c => String.mk (trimChars c)) = r.map rustTrim
    rw [show (String.mk (joinWith ',' (r.map String.data))).data
        = joinWith ',' (r.map String.data) from rfl]
    rw [splitChar_joinWith ',' (r.map String.data)
      (by simpa using hrow r hrmem)
      (fun p hp => by
        obtain ⟨c, hcmem, hceq⟩ := List.mem_map.mp hp
        rw [← hceq]
        exact (hcell r hrmem c hcmem).1)]
    rw [List.map_map]
    rfl
  exact congrArg (fun x => some (Except.ok (Table.mk x [])))
    (List.map_congr_left this)

/-- Witness for C8 (amended): a 2×2 list of comma-free cells with
whitespace round-trips to its trimmed cells. -/
theorem csv_roundtrip_witness :
    parse_table TableType.CsvTable (csvJoin [["a", " b "], ["c", "d"]]) false
      = some (Except.ok
          (Table.mk ([["a", " b "], ["c", "d"]].map (fun r => r.map rustTrim)) [])) :=
  csv_roundtrip [["a", " b "], ["c", "d"]] (by decide)
    (by decide) (by decide) (by decide)

end TablesCli
